import Mathlib

/-!
Verification development for the `store` package: a concurrency-safe,
file-backed element store with asynchronous writes and an optional LRU
cache (`store.go`).

The Go code is shallowly embedded as follows.  Machine integers
(`ElementID`, i.e. `uint64`) become `Nat` with explicit `< 2^64` bounds
where they matter.  The file system becomes an in-memory association of
`(directory, file name)` keys to byte lists, with `os.OpenFile(...,
O_WRONLY|O_CREATE, 0600)` modelled as create-if-absent plus an in-place
overwrite that does not truncate (no `O_TRUNC`, no `O_EXCL` in the
source).  Goroutines dispatched by `Put` become a FIFO pending list that
`Sync` drains; a separate lock-granular interleaving model is used for
the duplicate-`Put` race.  Disk I/O is made observable through an
explicit trace of filesystem operations.
-/

namespace StoreModel

/-! ### Base-36 identifier text form

`ElementID.String` is `strconv.FormatUint(uint64(id), 36)` and
`ElementID.FromString` is `strconv.ParseUint(str, 36, 64)`
(`store.go` lines 32-43). -/

/-- Digit characters produced by `strconv.FormatUint` for base 36:
`"0123456789abcdefghijklmnopqrstuvwxyz"`. -/
def digitChar36 (d : Nat) : Char :=
  if d < 10 then Char.ofNat (48 + d) else Char.ofNat (87 + d)

/-- Big-endian base-36 digit list of `n`, as produced by
`strconv.FormatUint(n, 36)`.  Structural recursion on a fuel bound so
that the function reduces definitionally; `fuel` many digits suffice
whenever `n < 36 ^ fuel`. -/
def toBase36Go (fuel n : Nat) : List Char :=
  match fuel with
  | 0 => []
  | fuel' + 1 =>
    if n < 36 then [digitChar36 n]
    else toBase36Go fuel' (n / 36) ++ [digitChar36 (n % 36)]

/-- The digit list of a `uint64` identifier: 64 units of fuel are ample
since `2 ^ 64 ≤ 36 ^ 64`. -/
def toBase36 (n : Nat) : List Char := toBase36Go 64 n

/-- `ElementID.String`: the base-36 text form of an identifier. -/
def idString (n : Nat) : String := String.mk (toBase36 n)

/-- Digit value accepted by `strconv.ParseUint` in base 36:
`0-9`, `a-z`, and `A-Z` (Go lower-cases letters by value). -/
def digitVal36 (c : Char) : Option Nat :=
  if 48 ≤ c.toNat ∧ c.toNat ≤ 57 then some (c.toNat - 48)
  else if 97 ≤ c.toNat ∧ c.toNat ≤ 122 then some (c.toNat - 87)
  else if 65 ≤ c.toNat ∧ c.toNat ≤ 90 then some (c.toNat - 55)
  else none

/-- Accumulating parser for `strconv.ParseUint(_, 36, 64)`: fails on an
invalid digit or as soon as the accumulated value overflows 64 bits
(Go's cutoff/maxVal checks are equivalent to checking the running value
against `2^64` at each step). -/
def parseB36Aux : List Char → Nat → Option Nat
  | [], acc => some acc
  | c :: cs, acc =>
    match digitVal36 c with
    | none => none
    | some d =>
      let v := acc * 36 + d
      if v < 2 ^ 64 then parseB36Aux cs v else none

/-- `ElementID.FromString`: parse a base-36 identifier; the empty string
is a syntax error in `strconv.ParseUint`. -/
def fromBase36 (s : String) : Option Nat :=
  match s.data with
  | [] => none
  | cs => parseB36Aux cs 0

theorem digitVal36_digitChar36 (d : Nat) (h : d < 36) :
    digitVal36 (digitChar36 d) = some d := by
  have : ∀ x : Fin 36, digitVal36 (digitChar36 x.val) = some x.val := by decide
  exact this ⟨d, h⟩

theorem toBase36Go_ne_nil (fuel n : Nat) (hfuel : 0 < fuel) :
    toBase36Go fuel n ≠ [] := by
  cases fuel with
  | zero => omega
  | succ fuel' =>
    unfold toBase36Go
    split
    · simp
    · simp

theorem toBase36_eq_go (n : Nat) : toBase36Go 64 n = toBase36 n := rfl

theorem toBase36Go_succ (fuel n : Nat) :
    toBase36Go (fuel + 1) n =
      if n < 36 then [digitChar36 n]
      else toBase36Go fuel (n / 36) ++ [digitChar36 (n % 36)] := rfl

theorem toBase36_ne_nil (n : Nat) : toBase36 n ≠ [] :=
  toBase36Go_ne_nil 64 n (by omega)

/-- Parsing the rendered digits of `n` continues the accumulator as
`acc * 36 ^ (number of digits) + n`, provided the fuel suffices and the
final value fits in 64 bits (every intermediate value is bounded by the
final one). -/
theorem parseB36Aux_toBase36Go (fuel : Nat) :
    ∀ (n acc : Nat) (rest : List Char),
      n < 36 ^ fuel →
      acc * 36 ^ (toBase36Go fuel n).length + n < 2 ^ 64 →
      parseB36Aux (toBase36Go fuel n ++ rest) acc =
        parseB36Aux rest (acc * 36 ^ (toBase36Go fuel n).length + n) := by
  induction fuel with
  | zero =>
    intro n acc rest hfuel hbound
    have hn : n = 0 := by simpa using hfuel
    subst hn
    simp [toBase36Go]
  | succ fuel ih =>
    intro n acc rest hfuel hbound
    by_cases h : n < 36
    · rw [toBase36Go_succ, if_pos h] at hbound ⊢
      rw [List.singleton_append]
      simp only [parseB36Aux, digitVal36_digitChar36 n h]
      rw [List.length_singleton] at hbound ⊢
      rw [pow_one] at hbound ⊢
      rw [if_pos hbound]
    · rw [toBase36Go_succ, if_neg h] at hbound ⊢
      have hfuel' : n / 36 < 36 ^ fuel := by
        rw [pow_succ] at hfuel
        omega
      have hlen : (toBase36Go fuel (n / 36) ++ [digitChar36 (n % 36)]).length
          = (toBase36Go fuel (n / 36)).length + 1 := by simp
      rw [hlen] at hbound ⊢
      rw [List.append_assoc, List.singleton_append]
      rw [pow_succ, ← mul_assoc] at hbound ⊢
      have hb' : acc * 36 ^ (toBase36Go fuel (n / 36)).length + n / 36 < 2 ^ 64 := by
        generalize acc * 36 ^ (toBase36Go fuel (n / 36)).length = q at hbound ⊢
        omega
      rw [ih (n / 36) acc (digitChar36 (n % 36) :: rest) hfuel' hb']
      simp only [parseB36Aux, digitVal36_digitChar36 (n % 36) (Nat.mod_lt n (by omega))]
      have hval : (acc * 36 ^ (toBase36Go fuel (n / 36)).length + n / 36) * 36 + n % 36
          = acc * 36 ^ (toBase36Go fuel (n / 36)).length * 36 + n := by
        generalize acc * 36 ^ (toBase36Go fuel (n / 36)).length = q
        omega
      rw [hval, if_pos hbound]

/-- Round trip: for every 64-bit identifier, parsing its base-36 text
form recovers the identifier (`FromString ∘ String = id`). -/
theorem fromBase36_idString (n : Nat) (h : n < 2 ^ 64) :
    fromBase36 (idString n) = some n := by
  have hfuel : n < 36 ^ 64 := by
    calc n < 2 ^ 64 := h
    _ ≤ 36 ^ 64 := Nat.pow_le_pow_left (by omega) 64
  have hb : 0 * 36 ^ (toBase36 n).length + n < 2 ^ 64 := by simpa using h
  have hp := parseB36Aux_toBase36Go 64 n 0 [] hfuel hb
  rw [toBase36_eq_go, List.append_nil] at hp
  simp only [parseB36Aux, Nat.zero_mul, Nat.zero_add] at hp
  unfold fromBase36 idString
  cases hm : toBase36 n with
  | nil => exact absurd hm (toBase36_ne_nil n)
  | cons c cs =>
    rw [hm] at hp
    exact hp

/-! ### Elements

`store.Element` is an interface {`Load(io.Reader) error`,
`Store(io.Writer) error`, `ID() ElementID`}.  An element is modelled as
its identifier plus the byte payload its serializer writes; the two
fallible capabilities become a success flag for serialization and a
predicate telling which byte streams deserialize successfully. -/

structure Element where
  elemId : Nat
  data : List Nat
  serializeOk : Bool
  loadOk : List Nat → Bool

/-! ### LRU cache

`store.LRUCache` (lines 69-158) keeps a doubly-linked recency list `l`
(front = most recently used) and a hash index `m` mapping each cached
identifier to its list node; `m` always indexes exactly the entries of
`l`, so the functional model keeps the list alone (front first) and
performs index lookups as scans of the list by identifier. -/

structure LRUCache where
  l : List Element
  size : Nat

/-- `NewLRUCache(size)`: non-positive size returns `nil` (lines 77-87);
a `nil` cache handle is modelled as `none`. -/
def NewLRUCache (size : Int) : Option LRUCache :=
  if size ≤ 0 then none else some { l := [], size := size.toNat }

/-- `MoveToFront(listElem)` on the node indexed by `id`: the first entry
with that identifier moves to the front, keeping the others in order.
Note the Go code moves the existing node without overwriting its value,
so promotion keeps the previously cached element. -/
def promote (l : List Element) (id : Nat) : List Element :=
  match l.find? (fun e => e.elemId == id) with
  | none => l
  | some e => e :: l.eraseP (fun e => e.elemId == id)

/-- `(*LRUCache).Cache` body under the mutex (lines 118-138): promote if
present; else push to the front if the cache is not full; else reuse the
back node for the new element and move it to the front (equivalently:
drop the last entry and push the new element to the front). -/
def LRUCache.cacheOp (c : LRUCache) (el : Element) : LRUCache :=
  if (c.l.find? (fun e => e.elemId == el.elemId)).isSome then
    { c with l := promote c.l el.elemId }
  else if c.l.length < c.size then
    { c with l := el :: c.l }
  else
    { c with l := el :: c.l.dropLast }

/-- `(*LRUCache).Cache` including the `nil`-receiver guard (line 114);
the `nil`-element guard has no counterpart since model elements are
values. -/
def cacheInsert (oc : Option LRUCache) (el : Element) : Option LRUCache :=
  match oc with
  | none => oc
  | some c => some (c.cacheOp el)

/-- `(*LRUCache).Get` (lines 143-158) as a value: index lookup by
identifier, `none` on a `nil` receiver or a miss. -/
def cacheGetFn (oc : Option LRUCache) (id : Nat) : Option Element :=
  match oc with
  | none => none
  | some c => c.l.find? (fun e => e.elemId == id)

/-- `(*LRUCache).Get` in state-passing form, mirroring the body
statement by statement: take the lock, look `id` up in the index, return
`nil` on a miss or the node's value on a hit; the state handed back is
exactly what each return path leaves behind. -/
def cacheGetS (oc : Option LRUCache) (id : Nat) :
    Option LRUCache × Option Element :=
  match oc with
  | none => (none, none)
  | some c =>
    match c.l.find? (fun e => e.elemId == id) with
    | none => (some c, none)
    | some el => (some c, some el)

/-! ### File system and store state

The store writes each element to `filepath.Join(root, prefix, idString)`
where `prefix` is the first `min 2 (length)` characters of the
identifier's base-36 form (`eldir`, lines 234-246).  Files are keyed by
`(directory, name)`; `FS.writeAt` models `os.OpenFile(path,
O_WRONLY|O_CREATE, 0600)` followed by a full write of the serialized
bytes: the file is created when absent, and an existing file is
overwritten in place from offset 0 without truncation (no `O_TRUNC`),
so bytes beyond the written prefix survive. -/

structure FsFile where
  dir : String
  name : String
  content : List Nat

structure FS where
  files : List FsFile

inductive IoOp
  | mkdirOp (dir : String)
  | writeOp (dir name : String)
  | readOp (dir name : String)
deriving DecidableEq

def FS.lookupFile (fs : FS) (dir name : String) : Option (List Nat) :=
  (fs.files.find? (fun f => f.dir == dir && f.name == name)).map
    (fun f => f.content)

/-- Create-or-overwrite-in-place: replace the first file with the given
key, writing `bytes` from offset 0 and keeping any longer tail; append a
fresh file when the key is absent. -/
def replaceContent : List FsFile → String → String → List Nat → List FsFile
  | [], dir, name, bytes => [{ dir := dir, name := name, content := bytes }]
  | f :: fsr, dir, name, bytes =>
    if f.dir == dir && f.name == name then
      { f with content := bytes ++ f.content.drop bytes.length } :: fsr
    else
      f :: replaceContent fsr dir name bytes

def FS.writeAt (fs : FS) (dir name : String) (bytes : List Nat) : FS :=
  { files := replaceContent fs.files dir name bytes }

/-- `O_CREATE` with a failed `el.Store(fh)`: the open created the file
(empty) when absent; an existing file is left as it was. -/
def createIfAbsent : List FsFile → String → String → List FsFile
  | [], dir, name => [{ dir := dir, name := name, content := [] }]
  | f :: fsr, dir, name =>
    if f.dir == dir && f.name == name then f :: fsr
    else f :: createIfAbsent fsr dir name

def FS.touch (fs : FS) (dir name : String) : FS :=
  { files := createIfAbsent fs.files dir name }

/-- The error values the store can produce: the two sentinel errors of
`store.go` plus verbatim-propagated I/O and serialization failures. -/
inductive Err
  | alreadyExists
  | doesNotExist
  | openFailed (dir name : String)
  | storeFailed (id : Nat)
  | loadFailed (id : Nat)
deriving DecidableEq

/-- `CacheOnGet = 1 << 0`. -/
def CacheOnGet : Nat := 1

/-- `CacheOnPut = 1 << 1`. -/
def CacheOnPut : Nat := 2

/-- The fields of `store.Store` (lines 169-183): root path, optional
cache and mode, durable inventory, in-flight write buffer (`inMem`),
and the sticky background-write error slot. -/
structure StoreState where
  path : String
  cache : Option LRUCache
  cacheMode : Nat
  inventory : List Nat
  inMem : List (Nat × Element)
  writeErr : Option Err

/-- A store together with the file system it acts on, the FIFO list of
dispatched-but-unfinished background writes, and the observable trace
of disk operations. -/
structure World where
  store : StoreState
  fs : FS
  pending : List Element
  trace : List IoOp

/-- `(*Store).eldir` (lines 234-246): directory named by the first
`min 2 (length)` characters of the identifier's base-36 form.  The
panic on a zero-length identifier string is unreachable: `toBase36`
always yields at least one digit (`toBase36_ne_nil`). -/
def eldir (root : String) (id : Nat) : String :=
  let s := idString id
  let dirLen := min 2 s.length
  root ++ "/" ++ s.take dirLen

/-- Go map lookup `s.inMem[id]` on the association-list model of the
in-flight buffer. -/
def lookupInMem (inMem : List (Nat × Element)) (id : Nat) : Option Element :=
  (inMem.find? (fun p => p.1 == id)).map (fun p => p.2)

/-- Go map `delete(s.inMem, id)`: a Go map holds at most one entry per
key, so removing the first matching entry models the delete. -/
def removeInMem (inMem : List (Nat × Element)) (id : Nat) :
    List (Nat × Element) :=
  inMem.eraseP (fun p => p.1 == id)

/-! ### Store operations -/

/-- `store.New(path)` (lines 185-211): ensure the root exists, then
walk the tree and register every regular file whose name parses as a
base-36 identifier.  The walk of the in-memory filesystem cannot fail;
all files of a model `FS` live under the store's root, and every model
file is a regular file. -/
def Store.New (root : String) (fs : FS) : World :=
  { store :=
      { path := root
        cache := none
        cacheMode := 0
        inventory := fs.files.filterMap (fun f => fromBase36 f.name)
        inMem := []
        writeErr := none }
    fs := fs
    pending := []
    trace := [] }

/-- `(*Store).SetCache` (lines 213-216). -/
def Store.SetCache (w : World) (c : Option LRUCache) (mode : Nat) : World :=
  { w with store := { w.store with cache := c, cacheMode := mode } }

/-- `(*Store).Has` (lines 218-232): the in-flight buffer is checked
before the inventory.  The function reads only the two in-memory sets —
it takes no filesystem argument, so it can do no disk I/O. -/
def Store.Has (s : StoreState) (id : Nat) : Bool :=
  if (lookupInMem s.inMem id).isSome then true
  else s.inventory.contains id

/-- `(*Store).Get` (lines 267-305): cache, then in-flight buffer, then
inventory; a miss in all three is `ErrDoesNotExist` with no disk access;
an inventory hit opens and loads the file (`(*Store).get`, lines
248-258), propagating open and deserialization failures verbatim, and
caches the loaded element when `CacheOnGet` is set. -/
def Store.Get (w : World) (element : Element) : World × Except Err Element :=
  let id := element.elemId
  match cacheGetFn w.store.cache id with
  | some el => (w, Except.ok el)
  | none =>
    match lookupInMem w.store.inMem id with
    | some el => (w, Except.ok el)
    | none =>
      if w.store.inventory.contains id then
        let dir := eldir w.store.path id
        let name := idString id
        let w1 := { w with trace := w.trace ++ [IoOp.readOp dir name] }
        match w.fs.lookupFile dir name with
        | none => (w1, Except.error (Err.openFailed dir name))
        | some bytes =>
          if element.loadOk bytes then
            let loaded := { element with data := bytes }
            if w.store.cacheMode &&& CacheOnGet != 0 then
              ({ w1 with store :=
                  { w1.store with cache := cacheInsert w1.store.cache loaded } },
                Except.ok loaded)
            else (w1, Except.ok loaded)
          else (w1, Except.error (Err.loadFailed id))
      else (w, Except.error Err.doesNotExist)

/-- `(*Store).put` (lines 307-324), the body of a background write:
`os.MkdirAll` (cannot fail on the in-memory filesystem), then
`os.OpenFile(path, O_WRONLY|O_CREATE, 0600)` — create if absent, no
`O_EXCL`, no `O_TRUNC` — then `el.Store(fh)` and `Close`.  A failing
serializer leaves the opened (possibly freshly created, empty) file
behind. -/
def bgPut (w : World) (el : Element) : World × Option Err :=
  let dir := eldir w.store.path el.elemId
  let name := idString el.elemId
  let w1 := { w with trace := w.trace ++ [IoOp.mkdirOp dir] }
  if el.serializeOk then
    ({ w1 with
        fs := w1.fs.writeAt dir name el.data
        trace := w1.trace ++ [IoOp.writeOp dir name] }, none)
  else
    ({ w1 with fs := w1.fs.touch dir name }, some (Err.storeFailed el.elemId))

/-- The goroutine body dispatched by `Put` (lines 343-363): run the
write; on failure record the sticky error, on success add the
identifier to the inventory and cache the element when `CacheOnPut` is
set; in every case the deferred delete removes the identifier from the
in-flight buffer last. -/
def bgComplete (w : World) (el : Element) : World :=
  let pr := bgPut w el
  let w1 := pr.1
  match pr.2 with
  | some e =>
    { w1 with store :=
        { w1.store with
            writeErr := some e
            inMem := removeInMem w1.store.inMem el.elemId } }
  | none =>
    let s2 := { w1.store with inventory := el.elemId :: w1.store.inventory }
    let s3 :=
      if s2.cacheMode &&& CacheOnPut != 0 then
        { s2 with cache := cacheInsert s2.cache el }
      else s2
    { w1 with store := { s3 with inMem := removeInMem s3.inMem el.elemId } }

/-- `(*Store).Put` (lines 326-341): fail with the sticky error if set;
fail with `ErrAlreadyExists` if `Has`; otherwise register the element
in the in-flight buffer, dispatch the background write, and return
`nil` immediately. -/
def Store.Put (w : World) (el : Element) : World × Option Err :=
  match w.store.writeErr with
  | some e => (w, some e)
  | none =>
    if Store.Has w.store el.elemId then (w, some Err.alreadyExists)
    else
      ({ w with
          store := { w.store with inMem := (el.elemId, el) :: w.store.inMem }
          pending := w.pending ++ [el] }, none)

/-- `(*Store).Sync` (lines 368-370): wait for all dispatched background
writes.  The model completes them in dispatch (FIFO) order — one
admissible schedule of the concurrent goroutines. -/
def Store.Sync (w : World) : World :=
  w.pending.foldl bgComplete { w with pending := [] }

/-! ### Interleaving model of two racing `Put` calls

The synchronous prefix of `(*Store).Put` (lines 326-339) decomposes
into the atomic sections delimited by its lock acquisitions:

* step 0 — read `s.writeErr` (line 328; unsynchronized read);
* step 1 — `Has` first half: `inMemLock.RLock`, look the identifier up
  in `inMem`, `RUnlock` (lines 221-223);
* step 2 — `Has` second half: if the buffer hit, return
  `ErrAlreadyExists`; else `ilock.RLock`, look the identifier up in the
  inventory, `RUnlock`, and return `ErrAlreadyExists` on a hit
  (lines 224-231, 333-335);
* step 3 — `inMemLock.Lock`, insert the element, `Unlock`, dispatch the
  background write, return `nil` (lines 337-341, 365).

No lock is held between step 2 and step 3, so two racing calls may
interleave arbitrarily between the check and the registration. -/

structure PutThread where
  elemId : Nat
  pc : Nat
  sawInMem : Bool
  res : Option (Option Err)

structure RaceState where
  inMem : List Nat
  inventory : List Nat
  writeErr : Option Err
  thA : PutThread
  thB : PutThread

/-- One atomic step of the synchronous prefix of `Put` for one thread. -/
def putStepThread (sh : RaceState) (t : PutThread) :
    PutThread × List Nat :=
  match t.pc with
  | 0 =>
    match sh.writeErr with
    | some e => ({ t with pc := 4, res := some (some e) }, sh.inMem)
    | none => ({ t with pc := 1 }, sh.inMem)
  | 1 => ({ t with pc := 2, sawInMem := sh.inMem.contains t.elemId }, sh.inMem)
  | 2 =>
    if t.sawInMem then
      ({ t with pc := 4, res := some (some Err.alreadyExists) }, sh.inMem)
    else if sh.inventory.contains t.elemId then
      ({ t with pc := 4, res := some (some Err.alreadyExists) }, sh.inMem)
    else ({ t with pc := 3 }, sh.inMem)
  | 3 => ({ t with pc := 4, res := some none }, t.elemId :: sh.inMem)
  | _ => (t, sh.inMem)

/-- Scheduler step: run one atomic action of thread A (`true`) or
thread B (`false`). -/
def putStep (sh : RaceState) (isA : Bool) : RaceState :=
  if isA then
    let pr := putStepThread sh sh.thA
    { sh with thA := pr.1, inMem := pr.2 }
  else
    let pr := putStepThread sh sh.thB
    { sh with thB := pr.1, inMem := pr.2 }

def runSched (sched : List Bool) (sh : RaceState) : RaceState :=
  sched.foldl putStep sh

/-- Two goroutines calling `Put` with the same identifier on a fresh
store, as in `TestConcurrentDuplicateInsertion`. -/
def raceInit (id : Nat) : RaceState :=
  { inMem := []
    inventory := []
    writeErr := none
    thA := { elemId := id, pc := 0, sawInMem := false, res := none }
    thB := { elemId := id, pc := 0, sawInMem := false, res := none } }

/-- The schedule in which both threads complete the duplicate check
before either registers the identifier. -/
def raceBadSched : List Bool :=
  [true, true, true, false, false, false, false, true]

/-! ### Theorems for the claims -/

/-- C1: against the claim that across concurrently racing `Put` calls
with the same identifier exactly one succeeds for all interleavings,
the code admits an interleaving in which both calls return success: the
`Has` check (lines 333-335) and the in-flight-buffer registration
(lines 337-339) are performed under separate lock acquisitions, so both
goroutines can pass the check before either registers.  Under the
schedule `raceBadSched` both threads return `nil`. -/
theorem c1_put_race_both_succeed :
    (runSched raceBadSched (raceInit 1)).thA.res = some none ∧
    (runSched raceBadSched (raceInit 1)).thB.res = some none := by
  decide

/-- C3: with no sticky background-write error set and `Has` true for
the element's identifier, `Put` returns `ErrAlreadyExists` and leaves
the entire world — inventory, in-flight buffer, cache, on-disk files,
pending writes and I/O trace — unchanged (lines 332-335 return before
any mutation). -/
theorem c3_duplicate_put_rejected (w : World) (el : Element)
    (hwe : w.store.writeErr = none)
    (hhas : Store.Has w.store el.elemId = true) :
    Store.Put w el = (w, some Err.alreadyExists) := by
  unfold Store.Put
  rw [hwe]
  simp only [hhas, if_true]

def c3World : World :=
  { store :=
      { path := "r", cache := none, cacheMode := 0, inventory := [1]
        inMem := [], writeErr := none }
    fs := { files := [] }, pending := [], trace := [] }

def c3Elem : Element :=
  { elemId := 1, data := [7], serializeOk := true, loadOk := fun _ => true }

/-- Witness for C3 at a concrete store whose inventory holds the
element's identifier. -/
theorem c3_duplicate_put_rejected_witness :
    c3World.store.writeErr = none ∧
    Store.Has c3World.store c3Elem.elemId = true ∧
    Store.Put c3World c3Elem = (c3World, some Err.alreadyExists) :=
  ⟨rfl, by decide, c3_duplicate_put_rejected c3World c3Elem rfl (by decide)⟩

/-- C7: `Has` returns true exactly when the identifier is in the
in-flight write buffer or in the durable inventory (the buffer is
checked first in the code, lines 218-232); `Store.Has` consumes only
the two in-memory sets — it takes no filesystem argument — so it
performs no disk I/O. -/
theorem c7_has_iff_inflight_or_inventory (s : StoreState) (id : Nat) :
    Store.Has s id = true ↔
      (∃ el, lookupInMem s.inMem id = some el) ∨ id ∈ s.inventory := by
  unfold Store.Has
  by_cases h : (lookupInMem s.inMem id).isSome
  · rw [if_pos h]
    constructor
    · intro _
      exact Or.inl (Option.isSome_iff_exists.mp h)
    · intro _
      rfl
  · rw [if_neg h]
    constructor
    · intro hc
      exact Or.inr (List.elem_iff.mp hc)
    · intro hor
      cases hor with
      | inl hel =>
        obtain ⟨el, hel⟩ := hel
        rw [hel] at h
        exact absurd rfl h
      | inr hm => exact List.elem_iff.mpr hm

/-- C10: a cache lookup leaves the entire cache state unchanged — on a
hit as well as on a miss, and on a `nil` handle — and its returned
value agrees with the plain value-level lookup; only `Cache`
(insert-or-promote) changes the recency list. -/
theorem c10_cache_get_no_mutation (oc : Option LRUCache) (id : Nat) :
    (cacheGetS oc id).1 = oc ∧ (cacheGetS oc id).2 = cacheGetFn oc id := by
  unfold cacheGetS cacheGetFn
  cases oc with
  | none => exact ⟨rfl, rfl⟩
  | some c =>
    cases h : c.l.find? (fun e => e.elemId == id) with
    | none => simp [h]
    | some el => simp [h]

def c4World : World :=
  { store :=
      { path := "r", cache := none, cacheMode := 0, inventory := []
        inMem := [], writeErr := none }
    fs := { files := [{ dir := "r/1", name := "1", content := [1, 2, 3] }] }
    pending := [], trace := [] }

def c4Elem : Element :=
  { elemId := 1, data := [9], serializeOk := true, loadOk := fun _ => true }

/-- C4 counterexample: `(*Store).put` opens the element's file with
`O_WRONLY|O_CREATE` and no `O_EXCL` (line 314), so when a file for the
identifier's path already exists the background write succeeds instead
of failing, and overwrites the file in place from offset 0 without
truncation: an existing file `[1,2,3]` written with `[9]` becomes
`[9,2,3]`. -/
theorem c4_existing_file_overwritten :
    c4World.fs.lookupFile (eldir c4World.store.path c4Elem.elemId)
        (idString c4Elem.elemId) = some [1, 2, 3] ∧
    (bgPut c4World c4Elem).2 = none ∧
    (bgPut c4World c4Elem).1.fs.lookupFile
        (eldir c4World.store.path c4Elem.elemId)
        (idString c4Elem.elemId) = some [9, 2, 3] := by
  refine ⟨by decide, by decide, by decide⟩

/-! ### Filesystem lemmas -/

theorem replaceContent_found (dir name : String) (bytes : List Nat) :
    ∀ (files : List FsFile) (old : List Nat),
      (files.find? (fun f => f.dir == dir && f.name == name)).map
        (fun f => f.content) = some old →
      ((replaceContent files dir name bytes).find?
          (fun f => f.dir == dir && f.name == name)).map (fun f => f.content)
        = some (bytes ++ old.drop bytes.length) := by
  intro files
  induction files with
  | nil => intro old h; simp [List.find?] at h
  | cons f rest ih =>
    intro old h
    by_cases hp : (f.dir == dir && f.name == name) = true
    · simp only [List.find?_cons, hp, Option.map_some] at h
      injection h with h
      unfold replaceContent
      rw [if_pos hp]
      simp only [List.find?_cons, hp, Option.map_some, h]
      rfl
    · have hp' : (f.dir == dir && f.name == name) = false :=
        Bool.not_eq_true _ ▸ Bool.of_not_eq_true hp
      simp only [List.find?_cons, hp'] at h
      unfold replaceContent
      rw [if_neg hp]
      simp only [List.find?_cons, hp']
      exact ih old h

theorem replaceContent_absent (dir name : String) (bytes : List Nat) :
    ∀ files : List FsFile,
      files.find? (fun f => f.dir == dir && f.name == name) = none →
      replaceContent files dir name bytes
        = files ++ [{ dir := dir, name := name, content := bytes }] := by
  intro files
  induction files with
  | nil => intro _; rfl
  | cons f rest ih =>
    intro h
    have hp : ¬((f.dir == dir && f.name == name) = true) := by
      intro hp
      simp only [List.find?_cons, hp] at h
      exact Option.noConfusion h
    have hp' : (f.dir == dir && f.name == name) = false :=
      Bool.not_eq_true _ ▸ Bool.of_not_eq_true hp
    simp only [List.find?_cons, hp'] at h
    unfold replaceContent
    rw [if_neg hp, ih h]
    rfl

/-- Writing to an existing file yields the overlay of the new bytes
over the old content. -/
theorem lookupFile_writeAt_found (fs : FS) (dir name : String)
    (bytes old : List Nat) (h : fs.lookupFile dir name = some old) :
    (fs.writeAt dir name bytes).lookupFile dir name
      = some (bytes ++ old.drop bytes.length) :=
  replaceContent_found dir name bytes fs.files old h

/-- Writing to an absent file creates it with exactly the written
bytes. -/
theorem lookupFile_writeAt_absent (fs : FS) (dir name : String)
    (bytes : List Nat) (h : fs.lookupFile dir name = none) :
    (fs.writeAt dir name bytes).lookupFile dir name = some bytes := by
  have h' : fs.files.find? (fun f => f.dir == dir && f.name == name) = none := by
    unfold FS.lookupFile at h
    cases hf : fs.files.find? (fun f => f.dir == dir && f.name == name) with
    | none => rfl
    | some f => rw [hf] at h; exact Option.noConfusion h
  unfold FS.writeAt FS.lookupFile
  rw [replaceContent_absent dir name bytes fs.files h']
  rw [List.find?_append, h']
  rw [Option.none_or]
  simp only [List.find?_cons, beq_self_eq_true, Bool.and_self, Option.map_some]
  rfl

/-- C4, amended: the background write opens the element's file with
create-if-missing and no exclusive flag (`O_WRONLY|O_CREATE`, line
314); if a file for that identifier's path already exists the write
does not fail — it succeeds and overwrites the existing contents in
place from offset 0 without truncating, so an existing longer file
keeps its tail beyond the written bytes. -/
theorem c4_amended_overwrite_semantics (w : World) (el : Element)
    (old : List Nat) (hser : el.serializeOk = true)
    (hfile : w.fs.lookupFile (eldir w.store.path el.elemId)
        (idString el.elemId) = some old) :
    (bgPut w el).2 = none ∧
    (bgPut w el).1.fs.lookupFile (eldir w.store.path el.elemId)
        (idString el.elemId) = some (el.data ++ old.drop el.data.length) := by
  have hbg : bgPut w el
      = ({ w with
            fs := w.fs.writeAt (eldir w.store.path el.elemId)
              (idString el.elemId) el.data
            trace := (w.trace ++ [IoOp.mkdirOp (eldir w.store.path el.elemId)])
              ++ [IoOp.writeOp (eldir w.store.path el.elemId)
                    (idString el.elemId)] }, none) := by
    unfold bgPut
    rw [hser]
    rfl
  rw [hbg]
  exact ⟨rfl, lookupFile_writeAt_found w.fs _ _ el.data old hfile⟩

/-- Witness for the amended C4 at the concrete overwrite scenario. -/
theorem c4_amended_overwrite_semantics_witness :
    c4Elem.serializeOk = true ∧
    c4World.fs.lookupFile (eldir c4World.store.path c4Elem.elemId)
        (idString c4Elem.elemId) = some [1, 2, 3] ∧
    (bgPut c4World c4Elem).2 = none ∧
    (bgPut c4World c4Elem).1.fs.lookupFile
        (eldir c4World.store.path c4Elem.elemId) (idString c4Elem.elemId)
      = some (c4Elem.data ++ [1, 2, 3].drop c4Elem.data.length) :=
  ⟨rfl, by decide,
    (c4_amended_overwrite_semantics c4World c4Elem [1, 2, 3] rfl (by decide)).1,
    (c4_amended_overwrite_semantics c4World c4Elem [1, 2, 3] rfl (by decide)).2⟩

/-! ### Sticky-error lemmas (C5) -/

/-- Replace only the sticky-error slot of a world, leaving every other
component untouched. -/
def World.withWriteErr (w : World) (oe : Option Err) : World :=
  { w with store := { w.store with writeErr := oe } }

theorem get_preserves_writeErr (w : World) (esk : Element) :
    (Store.Get w esk).1.store.writeErr = w.store.writeErr := by
  unfold Store.Get
  simp only
  split
  · rfl
  · split
    · rfl
    · split
      · split
        · rfl
        · split
          · split
            · rfl
            · rfl
          · rfl
      · rfl

theorem get_ignores_writeErr (w : World) (esk : Element) (oe : Option Err) :
    (Store.Get (w.withWriteErr oe) esk).2 = (Store.Get w esk).2 := by
  unfold Store.Get World.withWriteErr
  simp only
  split
  · rfl
  · split
    · rfl
    · split
      · split
        · rfl
        · split
          · split
            · rfl
            · rfl
          · rfl
      · rfl

theorem bgComplete_keeps_sticky (w : World) (el : Element)
    (h : w.store.writeErr.isSome = true) :
    ((bgComplete w el).store.writeErr).isSome = true := by
  unfold bgComplete bgPut
  by_cases hser : el.serializeOk = true
  · rw [hser]
    simp only [if_true]
    split
    · exact h
    · exact h
  · rw [Bool.not_eq_true] at hser
    rw [hser]
    simp only [Bool.false_eq_true, if_false]
    rfl

theorem foldl_bgComplete_keeps_sticky (els : List Element) :
    ∀ w : World, w.store.writeErr.isSome = true →
      ((els.foldl bgComplete w).store.writeErr).isSome = true := by
  induction els with
  | nil => intro w h; exact h
  | cons el els ih =>
    intro w h
    rw [List.foldl_cons]
    exact ih (bgComplete w el) (bgComplete_keeps_sticky w el h)

/-- C5: (i) with the sticky background-write error set, `Put` returns
that error immediately and changes nothing — no buffer registration, no
dispatched write (lines 328-330 return before any mutation); (ii) `Get`
leaves the sticky slot untouched; (iii) `Get`'s outcome is independent
of the sticky slot, so the sticky error is never surfaced through
`Get`; (iv) `Has` is likewise independent of the sticky slot; (v)
`Sync` never clears a set sticky error. -/
theorem c5_sticky_error_semantics (w : World) (el esk : Element) (e : Err)
    (oe : Option Err) (id : Nat) :
    (w.store.writeErr = some e → Store.Put w el = (w, some e)) ∧
    (Store.Get w esk).1.store.writeErr = w.store.writeErr ∧
    (Store.Get (w.withWriteErr oe) esk).2 = (Store.Get w esk).2 ∧
    Store.Has (w.withWriteErr oe).store id = Store.Has w.store id ∧
    (w.store.writeErr.isSome = true →
      ((Store.Sync w).store.writeErr).isSome = true) := by
  refine ⟨?_, get_preserves_writeErr w esk, get_ignores_writeErr w esk oe,
    rfl, ?_⟩
  · intro h
    unfold Store.Put
    rw [h]
  · intro h
    exact foldl_bgComplete_keeps_sticky w.pending { w with pending := [] } h

def c5World : World :=
  { store :=
      { path := "r", cache := none, cacheMode := 0, inventory := []
        inMem := [], writeErr := some (Err.storeFailed 9) }
    fs := { files := [] }, pending := [], trace := [] }

def c5Elem : Element :=
  { elemId := 1, data := [7], serializeOk := true, loadOk := fun _ => true }

/-- Witness for C5 at a concrete store whose sticky slot is set. -/
theorem c5_sticky_error_semantics_witness :
    c5World.store.writeErr = some (Err.storeFailed 9) ∧
    Store.Put c5World c5Elem = (c5World, some (Err.storeFailed 9)) ∧
    c5World.store.writeErr.isSome = true ∧
    ((Store.Sync c5World).store.writeErr).isSome = true :=
  ⟨rfl,
    (c5_sticky_error_semantics c5World c5Elem c5Elem (Err.storeFailed 9)
      none 1).1 rfl,
    rfl,
    (c5_sticky_error_semantics c5World c5Elem c5Elem (Err.storeFailed 9)
      none 1).2.2.2.2 rfl⟩

/-- C6: `Get` resolves in the order cache → in-flight buffer → durable
inventory: (1) a cache hit returns the cached element verbatim with the
whole world — trace included — unchanged; (2) on a cache miss, a buffer
hit returns the in-memory instance, again with the world unchanged;
(3) a miss in all three returns `ErrDoesNotExist` with the world —
hence the I/O trace — unchanged, so no disk access happens; (4) an
inventory hit reads the file at the element's path into the
caller-supplied skeleton, propagating the open failure or the
deserialization failure verbatim and returning the populated skeleton
on success. -/
theorem c6_get_resolution_order (w : World) (esk : Element) :
    (∀ el, cacheGetFn w.store.cache esk.elemId = some el →
      Store.Get w esk = (w, Except.ok el)) ∧
    (∀ el, cacheGetFn w.store.cache esk.elemId = none →
      lookupInMem w.store.inMem esk.elemId = some el →
      Store.Get w esk = (w, Except.ok el)) ∧
    (cacheGetFn w.store.cache esk.elemId = none →
      lookupInMem w.store.inMem esk.elemId = none →
      w.store.inventory.contains esk.elemId = false →
      Store.Get w esk = (w, Except.error Err.doesNotExist)) ∧
    (cacheGetFn w.store.cache esk.elemId = none →
      lookupInMem w.store.inMem esk.elemId = none →
      w.store.inventory.contains esk.elemId = true →
      (Store.Get w esk).2 =
        (match w.fs.lookupFile (eldir w.store.path esk.elemId)
            (idString esk.elemId) with
        | none => Except.error (Err.openFailed
            (eldir w.store.path esk.elemId) (idString esk.elemId))
        | some bytes =>
          if esk.loadOk bytes = true then Except.ok { esk with data := bytes }
          else Except.error (Err.loadFailed esk.elemId))) := by
  refine ⟨?_, ?_, ?_, ?_⟩
  · intro el hc
    unfold Store.Get
    simp only [hc]
  · intro el hc hm
    unfold Store.Get
    simp only [hc, hm]
  · intro hc hm hinv
    unfold Store.Get
    simp only [hc, hm, hinv, Bool.false_eq_true, if_false]
  · intro hc hm hinv
    unfold Store.Get
    simp only [hc, hm, hinv, if_true]
    split
    · rfl
    · split
      · split
        · rfl
        · rfl
      · rfl

def c6World : World := Store.New "r" { files := [] }

def c6Skel : Element :=
  { elemId := 5, data := [], serializeOk := true, loadOk := fun _ => true }

/-- Witness for C6 in the miss-everywhere case: `Get` on a never
submitted identifier returns not-found and performs no disk I/O. -/
theorem c6_get_resolution_order_witness :
    cacheGetFn c6World.store.cache c6Skel.elemId = none ∧
    lookupInMem c6World.store.inMem c6Skel.elemId = none ∧
    c6World.store.inventory.contains c6Skel.elemId = false ∧
    Store.Get c6World c6Skel = (c6World, Except.error Err.doesNotExist) :=
  ⟨rfl, rfl, rfl,
    (c6_get_resolution_order c6World c6Skel).2.2.1 rfl rfl rfl⟩

/-- C2: `Put` succeeds on a quiescent store that does not hold the
identifier, and after `Sync` drains the dispatched write, a new store
constructed over the same root directory sees `Has` true — the
construction-time walk parses the element's file name back to the
identifier — and `Get` into a fresh skeleton returns content
byte-identical to what was stored. -/
theorem c2_put_sync_new_roundtrip (w0 : World) (el esk : Element)
    (hid : el.elemId < 2 ^ 64)
    (hwe : w0.store.writeErr = none)
    (hhas : Store.Has w0.store el.elemId = false)
    (hser : el.serializeOk = true)
    (hpend : w0.pending = [])
    (hfile : w0.fs.lookupFile (eldir w0.store.path el.elemId)
        (idString el.elemId) = none)
    (heskid : esk.elemId = el.elemId)
    (hload : esk.loadOk el.data = true) :
    (Store.Put w0 el).2 = none ∧
    Store.Has (Store.New w0.store.path
        (Store.Sync (Store.Put w0 el).1).fs).store el.elemId = true ∧
    (Store.Get (Store.New w0.store.path
        (Store.Sync (Store.Put w0 el).1).fs) esk).2
      = Except.ok { esk with data := el.data } := by
  have hput : Store.Put w0 el
      = ({ w0 with
            store := { w0.store with
              inMem := (el.elemId, el) :: w0.store.inMem }
            pending := w0.pending ++ [el] }, none) := by
    unfold Store.Put
    rw [hwe]
    simp only [hhas, Bool.false_eq_true, if_false]
  have hfs : (Store.Sync (Store.Put w0 el).1).fs
      = w0.fs.writeAt (eldir w0.store.path el.elemId)
          (idString el.elemId) el.data := by
    rw [hput]
    unfold Store.Sync
    simp only [hpend, List.nil_append, List.foldl_cons, List.foldl_nil]
    unfold bgComplete bgPut
    rw [hser]
    rfl
  have hfind : w0.fs.files.find?
      (fun f => f.dir == eldir w0.store.path el.elemId
        && f.name == idString el.elemId) = none := by
    unfold FS.lookupFile at hfile
    cases hf : w0.fs.files.find?
        (fun f => f.dir == eldir w0.store.path el.elemId
          && f.name == idString el.elemId) with
    | none => rfl
    | some f => rw [hf] at hfile; exact Option.noConfusion hfile
  have hfiles : ((Store.Sync (Store.Put w0 el).1).fs).files
      = w0.fs.files ++ [{ dir := eldir w0.store.path el.elemId
                          name := idString el.elemId, content := el.data }] := by
    rw [hfs]
    exact replaceContent_absent _ _ el.data w0.fs.files hfind
  have hmem : el.elemId ∈ ((Store.Sync (Store.Put w0 el).1).fs).files.filterMap
      (fun f => fromBase36 f.name) := by
    rw [hfiles, List.filterMap_append]
    apply List.mem_append_right
    simp [List.filterMap_cons, fromBase36_idString el.elemId hid]
  have hcont : ((Store.New w0.store.path
      (Store.Sync (Store.Put w0 el).1).fs).store.inventory).contains el.elemId
      = true :=
    List.elem_iff.mpr hmem
  have hhasNew : Store.Has (Store.New w0.store.path
      (Store.Sync (Store.Put w0 el).1).fs).store el.elemId = true := by
    unfold Store.Has
    rw [show lookupInMem (Store.New w0.store.path
        (Store.Sync (Store.Put w0 el).1).fs).store.inMem el.elemId = none
      from rfl]
    simp only [Option.isSome_none, Bool.false_eq_true, if_false]
    exact hcont
  have hlookup : (Store.New w0.store.path
      (Store.Sync (Store.Put w0 el).1).fs).fs.lookupFile
        (eldir (Store.New w0.store.path
          (Store.Sync (Store.Put w0 el).1).fs).store.path el.elemId)
        (idString el.elemId) = some el.data := by
    show ((Store.Sync (Store.Put w0 el).1).fs).lookupFile
        (eldir w0.store.path el.elemId) (idString el.elemId) = some el.data
    rw [hfs]
    exact lookupFile_writeAt_absent w0.fs _ _ el.data hfile
  refine ⟨by rw [hput], hhasNew, ?_⟩
  unfold Store.Get
  have hcache : cacheGetFn (Store.New w0.store.path
      (Store.Sync (Store.Put w0 el).1).fs).store.cache el.elemId = none := rfl
  have hmem0 : lookupInMem (Store.New w0.store.path
      (Store.Sync (Store.Put w0 el).1).fs).store.inMem el.elemId = none := rfl
  have hcm : ((Store.New w0.store.path
      (Store.Sync (Store.Put w0 el).1).fs).store.cacheMode
        &&& CacheOnGet != 0) = false := by simp [Store.New, CacheOnGet]
  simp only [heskid, hcache, hmem0, hcont, if_true, hlookup, hload, hcm,
    Bool.false_eq_true, if_false, eq_self_iff_true]

def c2World : World := Store.New "r" { files := [] }

def c2Elem : Element :=
  { elemId := 1, data := [42], serializeOk := true, loadOk := fun _ => true }

def c2Skel : Element :=
  { elemId := 1, data := [], serializeOk := true, loadOk := fun _ => true }

/-- Witness for C2 at a concrete fresh store and element. -/
theorem c2_put_sync_new_roundtrip_witness :
    c2Elem.elemId < 2 ^ 64 ∧
    c2World.store.writeErr = none ∧
    Store.Has c2World.store c2Elem.elemId = false ∧
    c2Elem.serializeOk = true ∧
    c2World.pending = [] ∧
    c2World.fs.lookupFile (eldir c2World.store.path c2Elem.elemId)
        (idString c2Elem.elemId) = none ∧
    c2Skel.elemId = c2Elem.elemId ∧
    c2Skel.loadOk c2Elem.data = true ∧
    ((Store.Put c2World c2Elem).2 = none ∧
      Store.Has (Store.New c2World.store.path
          (Store.Sync (Store.Put c2World c2Elem).1).fs).store c2Elem.elemId
        = true ∧
      (Store.Get (Store.New c2World.store.path
          (Store.Sync (Store.Put c2World c2Elem).1).fs) c2Skel).2
        = Except.ok { c2Skel with data := c2Elem.data }) :=
  ⟨by decide, rfl, by decide, rfl, rfl, by decide, rfl, rfl,
    c2_put_sync_new_roundtrip c2World c2Elem c2Skel (by decide) rfl
      (by decide) rfl rfl (by decide) rfl rfl⟩

/-! ### LRU fill lemmas (C8) -/

/-- Repeated `Cache` calls, in list order. -/
def cacheInsertAll (oc : Option LRUCache) (els : List Element) :
    Option LRUCache :=
  els.foldl cacheInsert oc

theorem cacheInsertAll_some (els : List Element) :
    ∀ c : LRUCache,
      cacheInsertAll (some c) els = some (els.foldl LRUCache.cacheOp c) := by
  induction els with
  | nil => intro c; rfl
  | cons x xs ih =>
    intro c
    unfold cacheInsertAll at ih ⊢
    rw [List.foldl_cons, List.foldl_cons]
    exact ih (c.cacheOp x)

theorem find?_id_eq_none (l : List Element) (id : Nat)
    (h : ∀ e ∈ l, e.elemId ≠ id) :
    l.find? (fun e => e.elemId == id) = none :=
  List.find?_eq_none.mpr (fun x hx => by simpa using h x hx)

theorem cacheOp_fresh_notFull (c : LRUCache) (x : Element)
    (hfresh : ∀ e ∈ c.l, e.elemId ≠ x.elemId)
    (hlen : c.l.length < c.size) :
    c.cacheOp x = { l := x :: c.l, size := c.size } := by
  unfold LRUCache.cacheOp
  rw [find?_id_eq_none c.l x.elemId hfresh]
  simp only [Option.isSome_none, Bool.false_eq_true, if_false]
  rw [if_pos hlen]

/-- Inserting pairwise-fresh elements into a cache with enough free
room stacks them in reverse order in front of the existing entries. -/
theorem foldl_cacheOp_fill (xs : List Element) :
    ∀ c : LRUCache,
      c.l.length + xs.length ≤ c.size →
      (∀ x ∈ xs, ∀ e ∈ c.l, e.elemId ≠ x.elemId) →
      (xs.map Element.elemId).Nodup →
      xs.foldl LRUCache.cacheOp c
        = { l := xs.reverse ++ c.l, size := c.size } := by
  induction xs with
  | nil => intro c _ _ _; rfl
  | cons x xs ih =>
    intro c h1 h2 h3
    rw [List.foldl_cons]
    have hfresh : ∀ e ∈ c.l, e.elemId ≠ x.elemId :=
      fun e he => h2 x (List.mem_cons_self x xs) e he
    have hlen : c.l.length < c.size := by
      simp only [List.length_cons] at h1
      omega
    rw [cacheOp_fresh_notFull c x hfresh hlen]
    simp only [List.map_cons, List.nodup_cons] at h3
    have h1' : ({ l := x :: c.l, size := c.size } : LRUCache).l.length
        + xs.length ≤ ({ l := x :: c.l, size := c.size } : LRUCache).size := by
      simp only [List.length_cons] at h1 ⊢
      omega
    have h2' : ∀ y ∈ xs, ∀ e ∈ ({ l := x :: c.l, size := c.size } : LRUCache).l,
        e.elemId ≠ y.elemId := by
      intro y hy e he
      cases List.mem_cons.mp he with
      | inl hex =>
        subst hex
        intro heq
        exact h3.1 (heq ▸ List.mem_map_of_mem Element.elemId hy)
      | inr hec => exact h2 y (List.mem_cons_of_mem x hy) e hec
    rw [ih _ h1' h2' h3.2]
    congr 1
    simp [List.reverse_cons, List.append_assoc]

theorem find?_id_of_mem_nodup (l : List Element) :
    ∀ e : Element, e ∈ l → (l.map Element.elemId).Nodup →
      l.find? (fun x => x.elemId == e.elemId) = some e := by
  induction l with
  | nil => intro e hmem _; cases hmem
  | cons a t ih =>
    intro e hmem hnodup
    simp only [List.map_cons, List.nodup_cons] at hnodup
    cases List.mem_cons.mp hmem with
    | inl he =>
      subst he
      simp [List.find?_cons]
    | inr ht =>
      have hne : (a.elemId == e.elemId) = false := by
        rw [beq_eq_false_iff_ne]
        intro heq
        exact hnodup.1 (heq ▸ List.mem_map_of_mem Element.elemId ht)
      simp only [List.find?_cons, hne]
      exact ih e ht hnodup.2

/-- C8: for every capacity `C ≥ 1`, inserting `C + 1` elements with
pairwise distinct identifiers into a fresh LRU cache evicts exactly the
least-recently-used entry — the first one inserted — so that a lookup
on the evicted identifier returns absent while lookups on the other `C`
identifiers return their elements. -/
theorem c8_lru_eviction (C : Nat) (e0 : Element) (rest : List Element)
    (hC : 1 ≤ C) (hlen : rest.length = C)
    (hnodup : ((e0 :: rest).map Element.elemId).Nodup) :
    cacheGetFn (cacheInsertAll (NewLRUCache (C : Int)) (e0 :: rest))
        e0.elemId = none ∧
    ∀ e ∈ rest,
      cacheGetFn (cacheInsertAll (NewLRUCache (C : Int)) (e0 :: rest))
          e.elemId = some e := by
  have hpos : ¬((C : Int) ≤ 0) := by
    rw [not_le]
    exact_mod_cast hC
  have hnew : NewLRUCache (C : Int) = some { l := [], size := C } := by
    unfold NewLRUCache
    rw [if_neg hpos]
    simp
  obtain ⟨mid, lst, rfl⟩ : ∃ mid lst, rest = mid ++ [lst] := by
    cases List.eq_nil_or_concat rest with
    | inl h => rw [h] at hlen; simp at hlen; omega
    | inr h =>
      obtain ⟨l2, a, h⟩ := h
      exact ⟨l2, a, by rw [h, List.concat_eq_append]⟩
  have hmidlen : mid.length + 1 = C := by
    simp only [List.length_append, List.length_singleton] at hlen
    omega
  have hnodup2 := hnodup
  rw [List.map_cons, List.map_append, List.map_singleton, List.nodup_cons,
    List.nodup_append] at hnodup2
  have he0mid : e0.elemId ∉ mid.map Element.elemId :=
    fun hc => hnodup2.1 (List.mem_append_left _ hc)
  have he0lst : e0.elemId ≠ lst.elemId :=
    fun hc => hnodup2.1 (List.mem_append_right _ (by simp [hc]))
  have hmidnodup : (mid.map Element.elemId).Nodup := hnodup2.2.1
  have hlstmid : lst.elemId ∉ mid.map Element.elemId :=
    fun hc => hnodup2.2.2.2 hc (by simp)
  have hrun : cacheInsertAll (NewLRUCache (C : Int)) (e0 :: (mid ++ [lst]))
      = some { l := lst :: mid.reverse, size := C } := by
    rw [hnew, cacheInsertAll_some]
    rw [show e0 :: (mid ++ [lst]) = (e0 :: mid) ++ [lst] from rfl,
      List.foldl_append]
    have hfill := foldl_cacheOp_fill (e0 :: mid) { l := [], size := C }
      (by simp only [List.length_nil, List.length_cons]; omega)
      (by intro x hx e he; cases he)
      (by rw [List.map_cons, List.nodup_cons]; exact ⟨he0mid, hmidnodup⟩)
    rw [hfill, List.foldl_cons, List.foldl_nil]
    have hfresh : ∀ e ∈ ((e0 :: mid).reverse ++ ([] : List Element)),
        e.elemId ≠ lst.elemId := by
      intro e he
      rw [List.append_nil, List.mem_reverse] at he
      cases List.mem_cons.mp he with
      | inl h => subst h; exact he0lst
      | inr h =>
        exact fun hc => hlstmid (hc ▸ List.mem_map_of_mem Element.elemId h)
    unfold LRUCache.cacheOp
    rw [find?_id_eq_none _ _ hfresh]
    simp only [Option.isSome_none, Bool.false_eq_true, if_false]
    rw [if_neg (by
      simp only [List.append_nil, List.length_reverse, List.length_cons]
      omega)]
    congr 1
    simp [List.reverse_cons, List.dropLast_concat]
  constructor
  · rw [hrun]
    unfold cacheGetFn
    apply find?_id_eq_none
    intro e he
    cases List.mem_cons.mp he with
    | inl h => subst h; exact fun hc => he0lst hc.symm
    | inr h =>
      rw [List.mem_reverse] at h
      exact fun hc => he0mid (hc ▸ List.mem_map_of_mem Element.elemId h)
  · intro e he
    rw [hrun]
    unfold cacheGetFn
    cases List.mem_append.mp he with
    | inr h =>
      rw [List.mem_singleton] at h
      subst h
      simp [List.find?_cons]
    | inl h =>
      apply find?_id_of_mem_nodup
      · exact List.mem_cons_of_mem lst (List.mem_reverse.mpr h)
      · rw [List.map_cons, List.nodup_cons]
        constructor
        · intro hc
          rw [List.map_reverse, List.mem_reverse] at hc
          exact hlstmid hc
        · rw [List.map_reverse]
          exact List.nodup_reverse.mpr hmidnodup

def c8E0 : Element :=
  { elemId := 1, data := [1], serializeOk := true, loadOk := fun _ => true }

def c8E1 : Element :=
  { elemId := 2, data := [2], serializeOk := true, loadOk := fun _ => true }

/-- Witness for C8 at capacity 1 with two distinct elements: the first
is evicted, the second remains retrievable. -/
theorem c8_lru_eviction_witness :
    1 ≤ 1 ∧ [c8E1].length = 1 ∧
    (([c8E0, c8E1]).map Element.elemId).Nodup ∧
    (cacheGetFn (cacheInsertAll (NewLRUCache ((1 : Nat) : Int))
        [c8E0, c8E1]) c8E0.elemId = none ∧
      ∀ e ∈ [c8E1],
        cacheGetFn (cacheInsertAll (NewLRUCache ((1 : Nat) : Int))
          [c8E0, c8E1]) e.elemId = some e) :=
  ⟨le_refl 1, rfl, by decide,
    c8_lru_eviction 1 c8E0 [c8E1] (le_refl 1) rfl (by decide)⟩

/-! ### Cache-scenario of section 8 of the spec (C9) -/

def c9Elem (id : Nat) (d : List Nat) : Element :=
  { elemId := id, data := d, serializeOk := true, loadOk := fun _ => true }

def c9Skel (id : Nat) : Element :=
  { elemId := id, data := [], serializeOk := true, loadOk := fun _ => true }

/-- The spec's concrete scenario: a fresh store over root `"r"` with a
capacity-1 LRU cache in mode `CacheOnGet|CacheOnPut`; `Put(A)`,
`Put(B)`, `Put(C)` with identifiers 1, 2, 3, then `Sync()` completing
the three background writes in dispatch order. -/
def c9Setup (dA dB dC : List Nat) : World :=
  Store.Sync ((Store.Put ((Store.Put ((Store.Put
    (Store.SetCache (Store.New "r" { files := [] })
      (NewLRUCache 1) (CacheOnGet ||| CacheOnPut))
    (c9Elem 1 dA)).1) (c9Elem 2 dB)).1) (c9Elem 3 dC)).1)

def c9WorldSync : World := c9Setup [10] [20] [30]

def c9AfterGetA : World := (Store.Get c9WorldSync (c9Skel 1)).1

/-- C9 counterexample: in the spec's scenario, `Get(A)` succeeds from
disk and — because `CacheOnGet` is set — caches A, evicting C from the
capacity-1 cache.  The subsequent `Get(C)` therefore does NOT succeed
directly from the cache: the cache no longer contains C's identifier,
and the call performs a disk read (the I/O trace grows by a read of
C's file).  It still succeeds, but from disk. -/
theorem c9_get_c_cache_miss :
    (Store.Get c9WorldSync (c9Skel 1)).2
      = Except.ok { c9Skel 1 with data := [10] } ∧
    cacheGetFn c9AfterGetA.store.cache 3 = none ∧
    (Store.Get c9AfterGetA (c9Skel 3)).2
      = Except.ok { c9Skel 3 with data := [30] } ∧
    (Store.Get c9AfterGetA (c9Skel 3)).1.trace
      = c9AfterGetA.trace ++ [IoOp.readOp "r/3" "3"] :=
  ⟨rfl, rfl, rfl, rfl⟩

/-- C9, amended: in the spec's scenario the capacity-1 cache holds
only C after `Sync`; `Get(A)` misses the cache, succeeds by reading
from disk (the trace grows by a read of A's file) and returns A's
original content — and caching A on that `Get` evicts C, so the
subsequent `Get(C)` is a cache miss that also succeeds by reading from
disk, returning C's original content. -/
theorem c9_amended_both_gets_from_disk :
    cacheGetFn c9WorldSync.store.cache 1 = none ∧
    cacheGetFn c9WorldSync.store.cache 3 = some (c9Elem 3 [30]) ∧
    (Store.Get c9WorldSync (c9Skel 1)).2
      = Except.ok { c9Skel 1 with data := [10] } ∧
    (Store.Get c9WorldSync (c9Skel 1)).1.trace
      = c9WorldSync.trace ++ [IoOp.readOp "r/1" "1"] ∧
    cacheGetFn c9AfterGetA.store.cache 3 = none ∧
    (Store.Get c9AfterGetA (c9Skel 3)).2
      = Except.ok { c9Skel 3 with data := [30] } ∧
    (Store.Get c9AfterGetA (c9Skel 3)).1.trace
      = c9AfterGetA.trace ++ [IoOp.readOp "r/3" "3"] :=
  ⟨rfl, rfl, rfl, rfl, rfl, rfl, rfl⟩

end StoreModel
